import Mathlib

/-!
Verification of the DNS load-balancer backend core
(src/load_balancing/dnsdist-backend.cc).

This file gives a shallow embedding of the backend state machine:
the UDP query-id multiplexer (sequential slot table and randomized
sparse map), the per-backend hash vector computation, the server-pool
membership operations with their consistency flags, and the socket
reconnect routine.  The structure layout of DownstreamState and IDState
is not part of the embedded sources (it lives in a header that is not
included in this snapshot); the fields below follow the data model of
spec.md section 3, while every operation body is translated from
dnsdist-backend.cc.

Counters (outstanding, reuseds, and the offsets) are 64-bit unsigned
atomics in the source; they are modelled as Nat with explicit wrap-around
arithmetic modulo 2^64.  Concurrency is modelled at quiescent points:
the per-slot try-acquire guards always succeed in a single-threaded
execution, which is the setting all the quantified claims are stated in.
-/

/-- The modulus of the 64-bit unsigned counters, 2^64. -/
def u64Mod : Nat := 2 ^ 64

/-- Increment of a 64-bit unsigned counter (counter++). -/
def inc64 (n : Nat) : Nat := (n + 1) % u64Mod

/-- Decrement of a 64-bit unsigned counter (counter--). -/
def dec64 (n : Nat) : Nat := (n + (u64Mod - 1)) % u64Mod

/-- Per-query slot.  Data model from spec.md section 3 (the IDState
declaration is in a header outside the embedded sources): an in-use
bit, an age counter, and the opaque in-flight query context, which we
represent by a Nat token. -/
structure IDState where
  inUse : Bool
  age : Nat
  internal : Nat
deriving DecidableEq, Repr

/-- IDState(): a freshly constructed, unused slot. -/
def IDState.init : IDState := { inUse := false, age := 0, internal := 0 }

/-- Backend runtime state relevant to the id multiplexer.  Field layout
from spec.md section 3: a fixed slot table (sequential mode), a sparse
map keyed by id (randomized mode, modelled as an association list),
the monotonic offsets and the 64-bit counters.  timedOut is the output
channel of DOHUnitInterface::handleTimeout and of the timeout response
rules: the contexts for which a timeout has been surfaced, in order. -/
structure DownstreamState where
  idStates : List IDState
  idStatesMap : List (Nat × IDState)
  idOffset : Nat
  socketsOffset : Nat
  outstanding : Nat
  reuseds : Nat
  timedOut : List Nat
deriving DecidableEq, Repr

/-- The process-wide immutable configuration bits read by the
multiplexer code paths. -/
structure ImmutableConfig where
  randomizeIDsToBackend : Bool
deriving DecidableEq, Repr

/-- Association-list lookup keyed by id (std::map find). -/
def alLookup (k : Nat) : List (Nat × IDState) → Option IDState
  | [] => none
  | (k2, v) :: rest => if k2 = k then some v else alLookup k rest

/-- Overwrite the value stored under a key (writing through a std::map
iterator); appends when the key is absent, which never happens on the
paths below. -/
def alSet (k : Nat) (v : IDState) : List (Nat × IDState) → List (Nat × IDState)
  | [] => [(k, v)]
  | (k2, v2) :: rest => if k2 = k then (k, v) :: rest else (k2, v2) :: alSet k v rest

/-- Erase the entry stored under a key (std::map erase of a found
iterator). -/
def alErase (k : Nat) : List (Nat × IDState) → List (Nat × IDState)
  | [] => []
  | (k2, v2) :: rest => if k2 = k then rest else (k2, v2) :: alErase k rest

/-- Result of DownstreamState::getState.  The source indexes the slot
table with the raw id after the bounds check; oobAccess records an
execution in which that read falls outside the table (undefined
behavior in the C++ source, so it gets its own constructor instead of
a return value). -/
inductive GetStateResult where
  | ok (res : Option Nat) (ds : DownstreamState)
  | oobAccess (index : Nat)
deriving DecidableEq, Repr

namespace DownstreamState

/-- DownstreamState::getState, dnsdist-backend.cc lines 595-629.
Randomized mode: map lookup, move out, erase, decrement outstanding.
Sequential mode: the source rejects only id > idStates.size() and then
reads idStates[id]; at id = size that read is one past the table.  The
per-slot guard acquisition always succeeds at a quiescent point. -/
def getState (cfg : ImmutableConfig) (id : Nat) (ds : DownstreamState) : GetStateResult :=
  if cfg.randomizeIDsToBackend then
    match alLookup id ds.idStatesMap with
    | none => .ok none ds
    | some ids =>
      .ok (some ids.internal)
        { ds with idStatesMap := alErase id ds.idStatesMap,
                  outstanding := dec64 ds.outstanding }
  else
    if ds.idStates.length < id then
      .ok none ds
    else
      match ds.idStates[id]? with
      | none => .oobAccess id
      | some ids =>
        if ids.inUse then
          .ok (some ids.internal)
            { ds with idStates := ds.idStates.set id { ids with inUse := false },
                      outstanding := dec64 ds.outstanding }
        else
          .ok none { ds with idStates := ds.idStates.set id { ids with inUse := false } }

/-- The retry loop of the randomized branch of DownstreamState::saveState,
dnsdist-backend.cc lines 489-521.  Candidate ids come from
socketsOffset++ modulo 65535 (the random draw was removed in this
snapshot, see the source comment at line 497).  A failed emplace
decrements remainingAttempts and retries while it is positive; the
last candidate evicts the existing entry: its context is surfaced as a
timeout, reuseds is incremented and outstanding is left alone.
The remaining = 0 case is unreachable (the loop starts at 5 and
returns when the counter reaches 0). -/
def saveLoop (ctx : Nat) : Nat → DownstreamState → Nat × DownstreamState
  | remaining, ds =>
    let selectedID := ds.socketsOffset % 65535
    let ds1 := { ds with socketsOffset := inc64 ds.socketsOffset }
    match alLookup selectedID ds1.idStatesMap with
    | none =>
      (selectedID,
        { ds1 with
            idStatesMap := ds1.idStatesMap ++ [(selectedID, { IDState.init with internal := ctx, age := 0 })],
            outstanding := inc64 ds1.outstanding })
    | some old =>
      match remaining with
      | r + 1 =>
        if 0 < r then
          saveLoop ctx r ds1
        else
          (selectedID,
            { ds1 with
                idStatesMap := alSet selectedID { old with internal := ctx, age := 0 } ds1.idStatesMap,
                reuseds := inc64 ds1.reuseds,
                timedOut := ds1.timedOut ++ [old.internal] })
      | 0 =>
        (selectedID,
          { ds1 with
              idStatesMap := alSet selectedID { old with internal := ctx, age := 0 } ds1.idStatesMap,
              reuseds := inc64 ds1.reuseds,
              timedOut := ds1.timedOut ++ [old.internal] })

/-- DownstreamState::saveState, dnsdist-backend.cc lines 486-549.
Randomized mode runs the 5-attempt loop above.  Sequential mode picks
selectedID = idOffset++ mod N; the per-slot try-acquire succeeds at a
quiescent point, so the first probed slot wins: if it was in use the
previous context is overwritten (reuseds++, outstanding unchanged, the
old DOHUnit is surfaced as a timeout), otherwise outstanding++; either
way the slot then holds the new context with age 0 and inUse true.
An empty slot table (never configured: the table is resized to
maxUDPOutstanding at startup) makes the modulus undefined in the
source; we return id 0 with the state unchanged in that junk case. -/
def saveState (cfg : ImmutableConfig) (ctx : Nat) (ds : DownstreamState) : Nat × DownstreamState :=
  if cfg.randomizeIDsToBackend then
    saveLoop ctx 5 ds
  else
    let n := ds.idStates.length
    let selectedID := ds.idOffset % n
    let ds1 := { ds with idOffset := inc64 ds.idOffset }
    match ds1.idStates[selectedID]? with
    | none => (0, ds)
    | some ids =>
      if ids.inUse then
        (selectedID,
          { ds1 with
              idStates := ds1.idStates.set selectedID { inUse := true, age := 0, internal := ctx },
              reuseds := inc64 ds1.reuseds,
              timedOut := ds1.timedOut ++ [ids.internal] })
      else
        (selectedID,
          { ds1 with
              idStates := ds1.idStates.set selectedID { inUse := true, age := 0, internal := ctx },
              outstanding := inc64 ds1.outstanding })

/-- DownstreamState::restoreState, dnsdist-backend.cc lines 551-593.
Randomized mode: emplace; when the id is already present the incoming
context is dropped as a timeout and reuseds++, otherwise the context is
stored and outstanding++.  Sequential mode: the source indexes
idStates[id] with no bounds check at all, so an out-of-range id is an
out-of-bounds access (none).  The guard acquisition succeeds at a
quiescent point; an in-use slot drops the incoming context (reuseds++),
a free slot receives it (inUse true, outstanding++; age is not reset). -/
def restoreState (cfg : ImmutableConfig) (id : Nat) (ctx : Nat) (ds : DownstreamState) :
    Option DownstreamState :=
  if cfg.randomizeIDsToBackend then
    match alLookup id ds.idStatesMap with
    | some _ =>
      some { ds with reuseds := inc64 ds.reuseds, timedOut := ds.timedOut ++ [ctx] }
    | none =>
      some { ds with
               idStatesMap := ds.idStatesMap ++ [(id, { IDState.init with internal := ctx })],
               outstanding := inc64 ds.outstanding }
  else
    match ds.idStates[id]? with
    | none => none
    | some ids =>
      if ids.inUse then
        some { ds with reuseds := inc64 ds.reuseds, timedOut := ds.timedOut ++ [ctx] }
      else
        some { ds with
                 idStates := ds.idStates.set id { ids with inUse := true, internal := ctx },
                 outstanding := inc64 ds.outstanding }

end DownstreamState

/-- isIDSExpired, dnsdist-backend.cc lines 383-387: a slot is expired
when its age exceeds the UDP timeout. -/
def isIDSExpired (ids : IDState) (udpTimeout : Nat) : Bool :=
  decide (ids.age > udpTimeout)

/-- The sequential-mode scan loop of DownstreamState::handleUDPTimeouts,
dnsdist-backend.cc lines 463-483, threading the outstanding and reuseds
counters and the timeout output channel through the slots from left to
right.  A slot that is not in use is skipped; an in-use, unexpired slot
ages by one; an in-use, expired slot is drained by handleUDPTimeout
(lines 389-423): age 0, inUse false, reuseds++, outstanding--, and the
context is surfaced through the timeout response rules. -/
def scanSlots (t : Nat) : List IDState → Nat → Nat → List Nat →
    List IDState × Nat × Nat × List Nat
  | [], outs, reus, tmo => ([], outs, reus, tmo)
  | ids :: rest, outs, reus, tmo =>
    if ids.inUse = false then
      let r := scanSlots t rest outs reus tmo
      (ids :: r.1, r.2)
    else if isIDSExpired ids t = false then
      let r := scanSlots t rest outs reus tmo
      ({ ids with age := ids.age + 1 } :: r.1, r.2)
    else
      let r := scanSlots t rest (dec64 outs) (inc64 reus) (tmo ++ [ids.internal])
      ({ ids with age := 0, inUse := false } :: r.1, r.2)

/-- The randomized-mode scan of DownstreamState::handleUDPTimeouts,
dnsdist-backend.cc lines 450-462: expired entries are drained through
handleUDPTimeout and erased from the map, the others age by one. -/
def scanMap (t : Nat) : List (Nat × IDState) → Nat → Nat → List Nat →
    List (Nat × IDState) × Nat × Nat × List Nat
  | [], outs, reus, tmo => ([], outs, reus, tmo)
  | (k, ids) :: rest, outs, reus, tmo =>
    if isIDSExpired ids t then
      scanMap t rest (dec64 outs) (inc64 reus) (tmo ++ [ids.internal])
    else
      let r := scanMap t rest outs reus tmo
      ((k, { ids with age := ids.age + 1 }) :: r.1, r.2)

namespace DownstreamState

/-- DownstreamState::handleUDPTimeouts, dnsdist-backend.cc lines
442-484, for a UDP backend (the function returns immediately for other
protocols).  The sequential branch short-circuits when outstanding is
zero.  t is the effective UDP timeout. -/
def handleUDPTimeouts (cfg : ImmutableConfig) (t : Nat) (ds : DownstreamState) :
    DownstreamState :=
  if cfg.randomizeIDsToBackend then
    let r := scanMap t ds.idStatesMap ds.outstanding ds.reuseds ds.timedOut
    { ds with idStatesMap := r.1, outstanding := r.2.1, reuseds := r.2.2.1,
              timedOut := r.2.2.2 }
  else
    if 0 < ds.outstanding then
      let r := scanSlots t ds.idStates ds.outstanding ds.reuseds ds.timedOut
      { ds with idStates := r.1, outstanding := r.2.1, reuseds := r.2.2.1,
                timedOut := r.2.2.2 }
    else
      ds

end DownstreamState

/-- Number of in-use slots of a sequential-mode table. -/
def countInUse (l : List IDState) : Nat := (l.filter (fun ids => ids.inUse)).length

/-- The quiescent-point invariant of spec.md (invariant 3): outstanding
equals the number of in-use slots. -/
def OutstandingInv (ds : DownstreamState) : Prop :=
  ds.outstanding = countInUse ds.idStates

instance : DecidablePred OutstandingInv := fun ds =>
  inferInstanceAs (Decidable (ds.outstanding = countInUse ds.idStates))

/-- A freshly connected sequential-mode backend: n cleared slots
(connectUDPSockets resizes the table to maxUDPOutstanding), all
counters zero. -/
def freshBackend (n : Nat) : DownstreamState :=
  { idStates := List.replicate n IDState.init,
    idStatesMap := [],
    idOffset := 0,
    socketsOffset := 0,
    outstanding := 0,
    reuseds := 0,
    timedOut := [] }

/-- Number of slots the timeout scan will drain: in use and expired. -/
def countDrained (t : Nat) (l : List IDState) : Nat :=
  (l.filter (fun ids => ids.inUse && isIDSExpired ids t)).length

/-- The hash-vector part of the backend state: the derived hashes
vector and the hashesComputed latch (spec.md section 3).
DownstreamState::hash touches only these two fields, so they are
isolated here. -/
structure HashState where
  hashes : List Nat
  hashesComputed : Bool
deriving DecidableEq, Repr

/-- The while loop of DownstreamState::hash, dnsdist-backend.cc lines
203-209: starting from the configured weight and counting down to 1,
hash the string "<id>-<k>" with the perturbation seed and push the
result.  The burtleCI primitive itself lives in a header outside the
embedded sources, so it enters as the parameter H. -/
def buildHashes (H : String → Nat → Nat) (idStr : String) (perturb : Nat) : Nat → List Nat
  | 0 => []
  | w + 1 => H (idStr ++ "-" ++ toString (w + 1)) perturb :: buildHashes H idStr perturb w

/-- DownstreamState::hash, dnsdist-backend.cc lines 193-212: clear the
hashes vector, refill it from the weight-indexed strings, sort it
ascending (std::sort; on numeric values the sorted permutation is
unique, so insertionSort computes the same list), and latch
hashesComputed. -/
def HashState.hash (H : String → Nat → Nat) (idStr : String) (perturb weight : Nat)
    (_s : HashState) : HashState :=
  { hashes := List.insertionSort (· ≤ ·) (buildHashes H idStr perturb weight),
    hashesComputed := true }

/-- A pool member backend as seen by the ServerPool operations.  ident
models the shared_ptr identity used by removeServer; order is
d_config.order (a C++ int); useECS and disableZeroScope are the config
flags read by updateConsistency; tcpOnly is the value of the
isTCPOnly() observer, whose definition lives in a header outside the
embedded sources (spec.md lists TCP-only as a per-backend flag). -/
structure Backend where
  ident : Nat
  order : Int
  useECS : Bool
  disableZeroScope : Bool
  tcpOnly : Bool
deriving DecidableEq, Repr

/-- ServerPool state: the ordered member list with its 1-based
ordinals, and the derived consistency flags (spec.md section 3). -/
structure ServerPool where
  servers : List (Nat × Backend)
  useECS : Bool
  zeroScope : Bool
  tcpOnly : Bool
  isConsistent : Bool
deriving DecidableEq, Repr

/-- The comparison of the std::stable_sort call in ServerPool::addServer
(lhs.second->d_config.order < rhs.second->d_config.order).  A stable
sort under the strict comparison of a total order is the unique stable
sort under the matching non-strict relation, which is what insertionSort
computes; we therefore phrase the relation non-strictly. -/
def byOrder (x y : Nat × Backend) : Prop := x.2.order ≤ y.2.order

instance : DecidableRel byOrder := fun x y =>
  inferInstanceAs (Decidable (x.2.order ≤ y.2.order))

instance : IsTotal (Nat × Backend) byOrder :=
  ⟨fun x y => Int.le_total x.2.order y.2.order⟩

instance : IsTrans (Nat × Backend) byOrder :=
  ⟨fun _ _ _ hab hbc => Int.le_trans hab hbc⟩

/-- The running state of the ServerPool::updateConsistency loop: the
mutable locals consistent, useECS, tcpOnly, zeroScope of
dnsdist-backend.cc lines 802-806. -/
structure UCAcc where
  consistent : Bool
  useECS : Bool
  tcpOnly : Bool
  zeroScope : Bool
deriving DecidableEq, Repr

/-- The member loop of ServerPool::updateConsistency, dnsdist-backend.cc
lines 808-829.  The first member seeds the locals; for the others, a
useECS mismatch or disableZeroScope equal to zeroScope (zeroScope holds
the negation of the disableZeroScope of the first member) clears consistent
while the guard still holds, and a TCP-only mismatch against the
running tcpOnly value clears both consistent and tcpOnly. -/
def ucLoop : List (Nat × Backend) → Bool → UCAcc → UCAcc
  | [], _, acc => acc
  | (_, server) :: rest, first, acc =>
    if first then
      ucLoop rest false
        { acc with useECS := server.useECS, tcpOnly := server.tcpOnly,
                   zeroScope := !server.disableZeroScope }
    else
      let c1 :=
        if acc.consistent then
          let cA := if server.useECS ≠ acc.useECS then false else acc.consistent
          if server.disableZeroScope = acc.zeroScope then false else cA
        else acc.consistent
      let c2 := if server.tcpOnly ≠ acc.tcpOnly then false else c1
      let t2 := if server.tcpOnly ≠ acc.tcpOnly then false else acc.tcpOnly
      ucLoop rest false { acc with consistent := c2, tcpOnly := t2 }

namespace ServerPool

/-- ServerPool::updateConsistency, dnsdist-backend.cc lines 800-840:
run the loop from consistent = true, first = true, useECS = false,
tcpOnly = false, zeroScope = true; always publish tcpOnly; publish
useECS and zeroScope only when the members were found consistent;
publish isConsistent. -/
def updateConsistency (p : ServerPool) : ServerPool :=
  let acc := ucLoop p.servers true
    { consistent := true, useECS := false, tcpOnly := false, zeroScope := true }
  { p with tcpOnly := acc.tcpOnly,
           useECS := if acc.consistent then acc.useECS else p.useECS,
           zeroScope := if acc.consistent then acc.zeroScope else p.zeroScope,
           isConsistent := acc.consistent }

end ServerPool

/-- The renumbering that ServerPool::removeServer applies to the
members placed after the removed one (it->first = idx++), and that
ServerPool::addServer applies to the whole list from 1. -/
def renumberFrom (idx : Nat) : List (Nat × Backend) → List (Nat × Backend)
  | [] => []
  | (_, s) :: rest => (idx, s) :: renumberFrom (idx + 1) rest

/-- The iterator loop of ServerPool::removeServer, dnsdist-backend.cc
lines 777-793: idx starts at 1 and advances over the untouched prefix;
the first member whose identity matches is erased and every successor
is renumbered from the current idx. -/
def removeLoop (tgt : Nat) : Nat → List (Nat × Backend) → List (Nat × Backend) × Bool
  | _, [] => ([], false)
  | idx, (ord, s) :: rest =>
    if s.ident = tgt then (renumberFrom idx rest, true)
    else
      let r := removeLoop tgt (idx + 1) rest
      ((ord, s) :: r.1, r.2)

namespace ServerPool

/-- ServerPool::removeServer, dnsdist-backend.cc lines 775-798: run the
erase-and-renumber loop, then run updateConsistency only when a member
was removed and the pool was previously not consistent. -/
def removeServer (tgt : Nat) (p : ServerPool) : ServerPool :=
  let r := removeLoop tgt 1 p.servers
  let p1 := { p with servers := r.1 }
  if r.2 && !p.isConsistent then p1.updateConsistency else p1

/-- ServerPool::addServer, dnsdist-backend.cc lines 758-773: append the
new member with ordinal count + 1, stable-sort by config order,
renumber every ordinal from 1, and run updateConsistency. -/
def addServer (b : Backend) (p : ServerPool) : ServerPool :=
  let appended := p.servers ++ [(p.servers.length + 1, b)]
  ServerPool.updateConsistency
    { p with servers := renumberFrom 1 (List.insertionSort byOrder appended) }

end ServerPool

/-- A pool membership mutation (the two mutators of ServerPool). -/
inductive PoolMutation where
  | add (b : Backend)
  | remove (ident : Nat)

def applyMutation (m : PoolMutation) (p : ServerPool) : ServerPool :=
  match m with
  | .add b => p.addServer b
  | .remove i => p.removeServer i

def applyMutations (ms : List PoolMutation) (p : ServerPool) : ServerPool :=
  ms.foldl (fun q m => applyMutation m q) p

/-- The pool ordinals form the contiguous sequence 1..n. -/
def Contiguous (l : List (Nat × Backend)) : Prop :=
  l.map Prod.fst = List.range' 1 l.length

/-- Concrete inputs for the C7 counterexample.  cxA and cxB disagree on
useECS, so the two-member pool is inconsistent. -/
def cxA : Backend :=
  { ident := 1, order := 0, useECS := true, disableZeroScope := false, tcpOnly := false }

def cxB : Backend :=
  { ident := 2, order := 0, useECS := false, disableZeroScope := false, tcpOnly := false }

def cxPoolEmpty : ServerPool :=
  { servers := [], useECS := false, zeroScope := false, tcpOnly := false, isConsistent := false }

def cxPoolAB : ServerPool :=
  { servers := [(1, cxA), (2, cxB)], useECS := false, zeroScope := false,
    tcpOnly := false, isConsistent := true }

/-- Concrete inputs for the C5 counterexample: a previously consistent
two-member pool whose stored useECS flag differs from the surviving
flag of the surviving member, making the skipped recomputation observable. -/
def cxC : Backend :=
  { ident := 1, order := 0, useECS := true, disableZeroScope := false, tcpOnly := false }

def cxD : Backend :=
  { ident := 2, order := 0, useECS := true, disableZeroScope := false, tcpOnly := false }

def cxPool5 : ServerPool :=
  { servers := [(1, cxC), (2, cxD)], useECS := false, zeroScope := false,
    tcpOnly := false, isConsistent := true }

/-- The order relation on bare backends (map of byOrder under
Prod.snd). -/
def ordLe (x y : Backend) : Prop := x.order ≤ y.order

instance : DecidableRel ordLe := fun x y =>
  inferInstanceAs (Decidable (x.order ≤ y.order))

/-- The socket-visible state of a backend: the file descriptors (-1
when closed) and the connected flag (spec.md section 3). -/
structure SockState where
  sockets : List Int
  connected : Bool
deriving DecidableEq, Repr

/-- The configuration bits read by DownstreamState::reconnect: whether
the backend is stopped, whether the configured remote address is the
wildcard any-address, and whether a source address is configured (in
which case SBind is attempted on every socket). -/
structure ReconnCfg where
  stopped : Bool
  remoteIsAny : Bool
  useBind : Bool
deriving DecidableEq, Repr

/-- The outcomes of the system calls made by reconnect, per socket
slot: whether the connect lock is free, the descriptor SSocket would
return for slot i, and whether SSocket, SBind, and the
setDscp/SConnect pair succeed for slot i.  SSocket and SBind throw on
failure (they are outside the try block of the source); setDscp and
SConnect failures are caught by the try block. -/
structure SockEnv where
  lockBusy : Bool
  newFds : Nat → Nat
  openOk : Nat → Bool
  bindOk : Nat → Bool
  connectOk : Nat → Bool

/-- Result of the per-socket loop of reconnect: done carries the final
descriptor list and the final value of the connected flag (set true
after each successful SConnect, cleared on a caught failure before the
break); threw records an uncaught SSocket/SBind exception escaping the
function with the descriptors and connected flag as they stood. -/
inductive ReconnLoop where
  | done (fds : List Int) (connected : Bool)
  | threw (fds : List Int) (connected : Bool)
deriving DecidableEq, Repr

/-- The socket loop of DownstreamState::reconnect, dnsdist-backend.cc
lines 76-120, processing slot i onward.  Each slot first closes its
old descriptor (fd = -1), then opens a fresh socket; an SSocket
failure throws with the slot still closed, an SBind failure (when a
source address is configured) throws with the fresh descriptor leaked
open, a caught SConnect/setDscp failure clears connected and breaks
out leaving the remaining slots untouched, and success stores the
descriptor, sets connected, and moves on. -/
def reconnectLoop (env : SockEnv) (useBind : Bool) : Nat → Bool → List Int → ReconnLoop
  | _, conn, [] => .done [] conn
  | i, conn, _fd :: rest =>
    if env.openOk i = false then
      .threw ((-1) :: rest) conn
    else
      let nfd : Int := Int.ofNat (env.newFds i)
      if useBind && env.bindOk i = false then
        .threw (nfd :: rest) conn
      else if env.connectOk i = false then
        .done (nfd :: rest) false
      else
        match reconnectLoop env useBind (i + 1) true rest with
        | .done fds c => .done (nfd :: fds) c
        | .threw fds c => .threw (nfd :: fds) c

/-- The outcome of DownstreamState::reconnect: a boolean return with
the resulting socket state, or a propagated exception. -/
inductive ReconnectOutcome where
  | ret (b : Bool) (s : SockState)
  | exn (s : SockState)
deriving DecidableEq, Repr

/-- DownstreamState::reconnect, dnsdist-backend.cc lines 62-155.  A
busy connect lock or a stopped backend returns false immediately; a
wildcard remote address returns true immediately, both without
touching any socket or the connected flag.  Otherwise connected is
cleared and the socket loop runs; if it did not finish with connected
set, every descriptor is closed (reset to -1) and false is returned;
on full success true is returned with connected set.  An uncaught
SSocket/SBind exception propagates with the sockets as the loop left
them. -/
def DownstreamState.reconnect (env : SockEnv) (cfg : ReconnCfg) (st : SockState) :
    ReconnectOutcome :=
  if env.lockBusy || cfg.stopped then
    .ret false st
  else if cfg.remoteIsAny then
    .ret true st
  else
    match reconnectLoop env cfg.useBind 0 false st.sockets with
    | .threw fds c => .exn { sockets := fds, connected := c }
    | .done fds conn =>
      if conn then
        .ret true { sockets := fds, connected := true }
      else
        .ret false { sockets := fds.map (fun _ => (-1 : Int)), connected := false }

/-- Concrete inputs for the C9 counterexample and the C9 and C10
witnesses. -/
def cxEnvBindFail : SockEnv :=
  { lockBusy := false, newFds := fun i => 10 + i, openOk := fun _ => true,
    bindOk := fun _ => false, connectOk := fun _ => true }

def cxEnvBusy : SockEnv :=
  { lockBusy := true, newFds := fun i => i, openOk := fun _ => true,
    bindOk := fun _ => true, connectOk := fun _ => true }

def cxCfgAny : ReconnCfg := { stopped := false, remoteIsAny := true, useBind := false }

def cxCfgBind : ReconnCfg := { stopped := false, remoteIsAny := false, useBind := true }

def cxSt2 : SockState := { sockets := [-1, -1], connected := false }

theorem inc64_eq_add_one {n : Nat} (h : n + 1 < u64Mod) : inc64 n = n + 1 := by
  simp [inc64, Nat.mod_eq_of_lt h]

theorem dec64_eq_sub_one {n : Nat} (h0 : 1 ≤ n) (h1 : n < u64Mod) :
    dec64 n = n - 1 := by
  have hrw : n + (u64Mod - 1) = (n - 1) + 1 * u64Mod := by
    have : 1 ≤ u64Mod := Nat.one_le_two_pow
    omega
  rw [dec64, hrw, Nat.add_mul_mod_self_right]
  exact Nat.mod_eq_of_lt (by omega)

theorem list_set_self {α} : ∀ (l : List α) (i : Nat) (a : α),
    l[i]? = some a → l.set i a = l
  | [], i, a, h => by simp at h
  | x :: xs, 0, a, h => by
    simp at h
    simp [List.set, h]
  | x :: xs, i + 1, a, h => by
    simp at h
    simp [List.set, list_set_self xs i a h]

/-- C1 counterexample: the claim asserts that for every id at or past
the end of the slot table, getState returns nothing and never reads a
slot outside the table.  On a sequential-mode backend with 4 slots the
source accepts id = 4 (the bounds check only rejects id > size) and
reads idStates[4], one slot past the table. -/
theorem c1_counterexample :
    DownstreamState.getState ⟨false⟩ 4 (freshBackend 4) = GetStateResult.oobAccess 4 ∧
    (freshBackend 4).idStates.length ≤ 4 := by
  constructor
  · rfl
  · decide

/-- C1 (amended): in sequential mode, getState on an in-range, in-use
slot returns the stored context, marks the slot free and decrements
outstanding; on an in-range free slot it returns nothing and leaves the
backend completely unchanged; for id strictly greater than the table
size it returns nothing without touching the table; but at id equal to
the table size the bounds check passes and the source reads one slot
past the table (out-of-bounds access). -/
theorem c1_getState_spec (cfg : ImmutableConfig) (hm : cfg.randomizeIDsToBackend = false)
    (ds : DownstreamState) (id : Nat) :
    (∀ ids, ds.idStates[id]? = some ids → ids.inUse = true →
      ds.getState cfg id = GetStateResult.ok (some ids.internal)
        { ds with idStates := ds.idStates.set id { ids with inUse := false },
                  outstanding := dec64 ds.outstanding }) ∧
    (∀ ids, ds.idStates[id]? = some ids → ids.inUse = false →
      ds.getState cfg id = GetStateResult.ok none ds) ∧
    (ds.idStates.length < id → ds.getState cfg id = GetStateResult.ok none ds) ∧
    (id = ds.idStates.length → ds.getState cfg id = GetStateResult.oobAccess id) := by
  refine ⟨?_, ?_, ?_, ?_⟩
  · intro ids h hin
    have hlt : id < ds.idStates.length := (List.getElem?_eq_some.mp h).1
    simp only [DownstreamState.getState, hm, Bool.false_eq_true, if_false]
    rw [if_neg (by omega), h]
    simp [hin]
  · intro ids h hin
    have heq : (⟨false, ids.age, ids.internal⟩ : IDState) = ids := by
      cases ids
      simp_all
    have hlt : id < ds.idStates.length := (List.getElem?_eq_some.mp h).1
    simp only [DownstreamState.getState, hm, Bool.false_eq_true, if_false]
    rw [if_neg (by omega), h]
    simp only [hin, Bool.false_eq_true, if_false]
    rw [show ({ ids with inUse := false } : IDState) = ids from heq, list_set_self _ _ _ h]
  · intro h
    simp only [DownstreamState.getState, hm, Bool.false_eq_true, if_false]
    rw [if_pos h]
  · intro h
    subst h
    simp only [DownstreamState.getState, hm, Bool.false_eq_true, if_false]
    rw [if_neg (by omega)]
    rw [show ds.idStates[ds.idStates.length]? = none from
      List.getElem?_eq_none (Nat.le_refl _)]

/-- C1 witness: the amended theorem evaluated on a concrete two-slot
backend whose slot 0 is in use with context 7. -/
theorem c1_getState_spec_witness :
    (DownstreamState.getState ⟨false⟩ 0
        { idStates := [⟨true, 0, 7⟩, IDState.init], idStatesMap := [],
          idOffset := 0, socketsOffset := 0, outstanding := 1, reuseds := 0,
          timedOut := [] } =
      GetStateResult.ok (some 7)
        { idStates := [⟨false, 0, 7⟩, IDState.init], idStatesMap := [],
          idOffset := 0, socketsOffset := 0, outstanding := dec64 1, reuseds := 0,
          timedOut := [] }) ∧
    (DownstreamState.getState ⟨false⟩ 2
        { idStates := [⟨true, 0, 7⟩, IDState.init], idStatesMap := [],
          idOffset := 0, socketsOffset := 0, outstanding := 1, reuseds := 0,
          timedOut := [] } =
      GetStateResult.oobAccess 2) :=
  ⟨(c1_getState_spec ⟨false⟩ rfl _ 0).1 ⟨true, 0, 7⟩ rfl rfl,
   (c1_getState_spec ⟨false⟩ rfl _ 2).2.2.2 rfl⟩

theorem countInUse_cons (x : IDState) (xs : List IDState) :
    countInUse (x :: xs) = (if x.inUse = true then 1 else 0) + countInUse xs := by
  by_cases h : x.inUse = true <;>
    simp [countInUse, List.filter_cons, h, Nat.add_comm]

theorem countInUse_nil : countInUse [] = 0 := rfl

theorem countInUse_le_length (l : List IDState) : countInUse l ≤ l.length :=
  List.length_filter_le _ l

theorem countInUse_replicate_init (n : Nat) :
    countInUse (List.replicate n IDState.init) = 0 := by
  simp [countInUse, List.filter_replicate, IDState.init]

theorem countInUse_set : ∀ (l : List IDState) (i : Nat) (ids v : IDState),
    l[i]? = some ids →
    countInUse (l.set i v) + (if ids.inUse = true then 1 else 0) =
      countInUse l + (if v.inUse = true then 1 else 0)
  | [], i, ids, v, h => by simp at h
  | x :: xs, 0, ids, v, h => by
    simp at h
    subst h
    simp [List.set, countInUse_cons]
    omega
  | x :: xs, i + 1, ids, v, h => by
    simp at h
    have := countInUse_set xs i ids v h
    simp [List.set, countInUse_cons]
    omega

/-- C3: in sequential mode saveState never fails at a quiescent point:
it returns id = idOffset mod N (which is in range), bumps the offset,
stores the new context in that slot with age 0 and inUse true, and
either counts a reuse (slot was in use: reuseds++, outstanding
untouched) or a fresh allocation (outstanding++).  In particular on a
fresh 4-slot backend five successive calls return ids 0, 1, 2, 3, 0,
with reuseds going from 0 to exactly 1 on the fifth call and
outstanding ending at 4. -/
theorem c3_saveState_spec :
    (∀ (cfg : ImmutableConfig), cfg.randomizeIDsToBackend = false →
      ∀ (ds : DownstreamState) (ctx : Nat), 0 < ds.idStates.length →
        (ds.saveState cfg ctx).1 = ds.idOffset % ds.idStates.length ∧
        (ds.saveState cfg ctx).1 < ds.idStates.length ∧
        (ds.saveState cfg ctx).2.idOffset = inc64 ds.idOffset ∧
        (ds.saveState cfg ctx).2.idStates =
          ds.idStates.set (ds.idOffset % ds.idStates.length) ⟨true, 0, ctx⟩ ∧
        (∀ ids, ds.idStates[ds.idOffset % ds.idStates.length]? = some ids →
          (ids.inUse = true →
            (ds.saveState cfg ctx).2.reuseds = inc64 ds.reuseds ∧
            (ds.saveState cfg ctx).2.outstanding = ds.outstanding) ∧
          (ids.inUse = false →
            (ds.saveState cfg ctx).2.outstanding = inc64 ds.outstanding ∧
            (ds.saveState cfg ctx).2.reuseds = ds.reuseds))) ∧
    ((DownstreamState.saveState ⟨false⟩ 11 (freshBackend 4)).1 = 0 ∧
      ((freshBackend 4).saveState ⟨false⟩ 11 |>.2.saveState ⟨false⟩ 12).1 = 1 ∧
      ((freshBackend 4).saveState ⟨false⟩ 11 |>.2.saveState ⟨false⟩ 12 |>.2.saveState ⟨false⟩ 13).1 = 2 ∧
      ((freshBackend 4).saveState ⟨false⟩ 11 |>.2.saveState ⟨false⟩ 12 |>.2.saveState ⟨false⟩ 13
        |>.2.saveState ⟨false⟩ 14).1 = 3 ∧
      ((freshBackend 4).saveState ⟨false⟩ 11 |>.2.saveState ⟨false⟩ 12 |>.2.saveState ⟨false⟩ 13
        |>.2.saveState ⟨false⟩ 14 |>.2).reuseds = 0 ∧
      ((freshBackend 4).saveState ⟨false⟩ 11 |>.2.saveState ⟨false⟩ 12 |>.2.saveState ⟨false⟩ 13
        |>.2.saveState ⟨false⟩ 14 |>.2).outstanding = 4 ∧
      ((freshBackend 4).saveState ⟨false⟩ 11 |>.2.saveState ⟨false⟩ 12 |>.2.saveState ⟨false⟩ 13
        |>.2.saveState ⟨false⟩ 14 |>.2.saveState ⟨false⟩ 15).1 = 0 ∧
      ((freshBackend 4).saveState ⟨false⟩ 11 |>.2.saveState ⟨false⟩ 12 |>.2.saveState ⟨false⟩ 13
        |>.2.saveState ⟨false⟩ 14 |>.2.saveState ⟨false⟩ 15 |>.2).reuseds = 1 ∧
      ((freshBackend 4).saveState ⟨false⟩ 11 |>.2.saveState ⟨false⟩ 12 |>.2.saveState ⟨false⟩ 13
        |>.2.saveState ⟨false⟩ 14 |>.2.saveState ⟨false⟩ 15 |>.2).outstanding = 4) := by
  constructor
  · intro cfg hm ds ctx hn
    have hlt : ds.idOffset % ds.idStates.length < ds.idStates.length := Nat.mod_lt _ hn
    have hsome : ds.idStates[ds.idOffset % ds.idStates.length]? =
        some (ds.idStates[ds.idOffset % ds.idStates.length]) :=
      List.getElem?_eq_getElem hlt
    by_cases hin : (ds.idStates[ds.idOffset % ds.idStates.length]).inUse = true
    · have key : ds.saveState cfg ctx =
          (ds.idOffset % ds.idStates.length,
            { ds with
                idStates := ds.idStates.set (ds.idOffset % ds.idStates.length) ⟨true, 0, ctx⟩,
                idOffset := inc64 ds.idOffset,
                reuseds := inc64 ds.reuseds,
                timedOut := ds.timedOut ++
                  [(ds.idStates[ds.idOffset % ds.idStates.length]).internal] }) := by
        simp only [DownstreamState.saveState, hm, Bool.false_eq_true, if_false]
        rw [hsome]
        simp [hin]
      refine ⟨by rw [key], by rw [key]; exact hlt, by rw [key], by rw [key], ?_⟩
      intro ids hids
      have hEq : (ds.idStates[ds.idOffset % ds.idStates.length]) = ids :=
        Option.some.inj (hsome.symm.trans hids)
      refine ⟨fun _ => ⟨by rw [key], by rw [key]⟩, fun hfalse => ?_⟩
      rw [← hEq, hin] at hfalse
      cases hfalse
    · have key : ds.saveState cfg ctx =
          (ds.idOffset % ds.idStates.length,
            { ds with
                idStates := ds.idStates.set (ds.idOffset % ds.idStates.length) ⟨true, 0, ctx⟩,
                idOffset := inc64 ds.idOffset,
                outstanding := inc64 ds.outstanding }) := by
        simp only [DownstreamState.saveState, hm, Bool.false_eq_true, if_false]
        rw [hsome]
        simp [hin]
      refine ⟨by rw [key], by rw [key]; exact hlt, by rw [key], by rw [key], ?_⟩
      intro ids hids
      have hEq : (ds.idStates[ds.idOffset % ds.idStates.length]) = ids :=
        Option.some.inj (hsome.symm.trans hids)
      refine ⟨fun htrue => ?_, fun _ => ⟨by rw [key], by rw [key]⟩⟩
      rw [← hEq] at htrue
      exact absurd htrue hin
  · decide

/-- C3 witness: the general part of the saveState specification applied
to a fresh 4-slot backend. -/
theorem c3_saveState_spec_witness :
    (DownstreamState.saveState ⟨false⟩ 11 (freshBackend 4)).1 =
      (freshBackend 4).idOffset % (freshBackend 4).idStates.length :=
  (c3_saveState_spec.1 ⟨false⟩ rfl (freshBackend 4) 11 (by decide)).1

theorem countDrained_cons (t : Nat) (x : IDState) (xs : List IDState) :
    countDrained t (x :: xs) =
      (if (x.inUse && isIDSExpired x t) = true then 1 else 0) + countDrained t xs := by
  by_cases h : (x.inUse && isIDSExpired x t) = true <;>
    simp [countDrained, List.filter_cons, h, Nat.add_comm]

theorem scanSlots_spec (t : Nat) : ∀ (l : List IDState) (outs reus : Nat) (tmo : List Nat),
    countInUse l ≤ outs → outs < u64Mod →
    (scanSlots t l outs reus tmo).2.1 + countDrained t l = outs ∧
    countInUse (scanSlots t l outs reus tmo).1 + countDrained t l = countInUse l
  | [], outs, reus, tmo, _, _ => by simp [scanSlots, countDrained, countInUse]
  | x :: xs, outs, reus, tmo, hle, hlt => by
    rw [countInUse_cons] at hle
    by_cases hx : x.inUse = true
    · by_cases hexp : isIDSExpired x t = true
      · have hout1 : 1 ≤ outs := by simp [hx] at hle; omega
        have hdec : dec64 outs = outs - 1 := dec64_eq_sub_one hout1 hlt
        have ihle : countInUse xs ≤ dec64 outs := by
          rw [hdec]
          simp [hx] at hle
          omega
        have ihlt : dec64 outs < u64Mod := by rw [hdec]; omega
        have ih := scanSlots_spec t xs (dec64 outs) (inc64 reus) (tmo ++ [x.internal]) ihle ihlt
        simp only [scanSlots, hx, Bool.true_eq_false, if_false, hexp]
        simp only [countInUse_cons, countDrained_cons]
        simp [hx, hexp]
        simp [hx] at hle
        omega
      · have hexpf : isIDSExpired x t = false := by
          revert hexp; cases isIDSExpired x t <;> simp
        have ih := scanSlots_spec t xs outs reus tmo (by simp [hx] at hle; omega) hlt
        simp [scanSlots, hx, hexpf, countInUse_cons, countDrained_cons]
        simp [hx] at hle
        omega
    · have hxf : x.inUse = false := by revert hx; cases x.inUse <;> simp
      have ih := scanSlots_spec t xs outs reus tmo (by simp [hxf] at hle; omega) hlt
      simp [scanSlots, hxf, countInUse_cons, countDrained_cons]
      simp [hxf] at hle
      omega

/-- C4: in sequential mode the quiescent invariant outstanding =
number of in-use slots holds on a fresh backend and is preserved by
saveState, restoreState (on an in-range id, where the source is
defined), getState (whenever the call is in bounds and returns), and
handleUDPTimeouts, which drains every in-use slot whose age exceeds
the UDP timeout, decrementing outstanding and incrementing reuseds per
drained slot.  The slot count is bounded by 2^16 (the table size is a
16-bit quantity), which keeps the 64-bit counters exact. -/
theorem c4_outstanding_invariant :
    (∀ n : Nat, OutstandingInv (freshBackend n)) ∧
    (∀ (cfg : ImmutableConfig), cfg.randomizeIDsToBackend = false →
      ∀ (ds : DownstreamState) (ctx : Nat),
        0 < ds.idStates.length → ds.idStates.length < 2 ^ 16 →
        OutstandingInv ds → OutstandingInv (ds.saveState cfg ctx).2) ∧
    (∀ (cfg : ImmutableConfig), cfg.randomizeIDsToBackend = false →
      ∀ (ds ds2 : DownstreamState) (id ctx : Nat),
        ds.idStates.length < 2 ^ 16 →
        ds.restoreState cfg id ctx = some ds2 →
        OutstandingInv ds → OutstandingInv ds2) ∧
    (∀ (cfg : ImmutableConfig), cfg.randomizeIDsToBackend = false →
      ∀ (ds ds2 : DownstreamState) (id : Nat) (res : Option Nat),
        ds.idStates.length < 2 ^ 16 →
        ds.getState cfg id = GetStateResult.ok res ds2 →
        OutstandingInv ds → OutstandingInv ds2) ∧
    (∀ (cfg : ImmutableConfig), cfg.randomizeIDsToBackend = false →
      ∀ (ds : DownstreamState) (t : Nat),
        ds.idStates.length < 2 ^ 16 →
        OutstandingInv ds → OutstandingInv (ds.handleUDPTimeouts cfg t)) := by
  have hcount : ∀ ds : DownstreamState, OutstandingInv ds →
      ds.idStates.length < 2 ^ 16 → ds.outstanding < u64Mod ∧ ds.outstanding + 1 < u64Mod := by
    intro ds hinv hlen
    have h1 : ds.outstanding ≤ ds.idStates.length := by
      rw [hinv]; exact countInUse_le_length _
    have : (2 : Nat) ^ 16 + 1 < u64Mod := by decide
    constructor <;> omega
  refine ⟨?_, ?_, ?_, ?_, ?_⟩
  · intro n
    show (freshBackend n).outstanding = countInUse (freshBackend n).idStates
    simp [freshBackend, countInUse_replicate_init]
  · intro cfg hm ds ctx hn hlen hinv
    obtain ⟨hu1, hu2⟩ := hcount ds hinv hlen
    have hlt : ds.idOffset % ds.idStates.length < ds.idStates.length := Nat.mod_lt _ hn
    have hsome : ds.idStates[ds.idOffset % ds.idStates.length]? =
        some (ds.idStates[ds.idOffset % ds.idStates.length]) :=
      List.getElem?_eq_getElem hlt
    have hc3 := (c3_saveState_spec.1 cfg hm ds ctx hn).2.2.2
    have hset := countInUse_set ds.idStates (ds.idOffset % ds.idStates.length)
      (ds.idStates[ds.idOffset % ds.idStates.length]) ⟨true, 0, ctx⟩ hsome
    show (ds.saveState cfg ctx).2.outstanding = countInUse (ds.saveState cfg ctx).2.idStates
    rw [hc3.1]
    by_cases hin : (ds.idStates[ds.idOffset % ds.idStates.length]).inUse = true
    · rw [((hc3.2 _ hsome).1 hin).2, hinv]
      simp [hin] at hset
      omega
    · have hinf : (ds.idStates[ds.idOffset % ds.idStates.length]).inUse = false := by
        revert hin; cases (ds.idStates[ds.idOffset % ds.idStates.length]).inUse <;> simp
      rw [((hc3.2 _ hsome).2 hinf).1, inc64_eq_add_one hu2, hinv]
      simp [hinf] at hset
      omega
  · intro cfg hm ds ds2 id ctx hlen hres hinv
    obtain ⟨hu1, hu2⟩ := hcount ds hinv hlen
    simp only [DownstreamState.restoreState, hm, Bool.false_eq_true, if_false] at hres
    cases hsome : ds.idStates[id]? with
    | none => rw [hsome] at hres; cases hres
    | some ids =>
      rw [hsome] at hres
      by_cases hin : ids.inUse = true
      · simp only [hin, if_true] at hres
        cases hres
        exact hinv
      · simp only [hin, if_false] at hres
        cases hres
        have hset := countInUse_set ds.idStates id ids
          { ids with inUse := true, internal := ctx } hsome
        show inc64 ds.outstanding = countInUse (ds.idStates.set id _)
        rw [inc64_eq_add_one hu2, hinv]
        have hinf : ids.inUse = false := by revert hin; cases ids.inUse <;> simp
        simp [hinf] at hset
        omega
  · intro cfg hm ds ds2 id res hlen hres hinv
    obtain ⟨hu1, hu2⟩ := hcount ds hinv hlen
    simp only [DownstreamState.getState, hm, Bool.false_eq_true, if_false] at hres
    by_cases hoob : ds.idStates.length < id
    · rw [if_pos hoob] at hres
      cases hres
      exact hinv
    · rw [if_neg hoob] at hres
      cases hsome : ds.idStates[id]? with
      | none => rw [hsome] at hres; cases hres
      | some ids =>
        rw [hsome] at hres
        have hset := countInUse_set ds.idStates id ids { ids with inUse := false } hsome
        by_cases hin : ids.inUse = true
        · simp only [hin, if_true] at hres
          cases hres
          show dec64 ds.outstanding = countInUse (ds.idStates.set id _)
          simp [hin] at hset
          have hout1 : 1 ≤ ds.outstanding := by rw [hinv]; omega
          rw [dec64_eq_sub_one hout1 hu1, hinv]
          omega
        · simp only [hin, if_false] at hres
          cases hres
          have hinf : ids.inUse = false := by revert hin; cases ids.inUse <;> simp
          show ds.outstanding = countInUse (ds.idStates.set id _)
          simp [hinf] at hset
          rw [hinv]
          omega
  · intro cfg hm ds t hlen hinv
    obtain ⟨hu1, hu2⟩ := hcount ds hinv hlen
    simp only [DownstreamState.handleUDPTimeouts, hm, Bool.false_eq_true, if_false]
    by_cases hpos : 0 < ds.outstanding
    · rw [if_pos hpos]
      have hspec := scanSlots_spec t ds.idStates ds.outstanding ds.reuseds ds.timedOut
        (le_of_eq hinv.symm) hu1
      show (scanSlots t ds.idStates ds.outstanding ds.reuseds ds.timedOut).2.1 =
        countInUse (scanSlots t ds.idStates ds.outstanding ds.reuseds ds.timedOut).1
      rw [hinv] at hspec ⊢
      omega
    · rw [if_neg hpos]
      exact hinv

/-- C4 witness: the invariant preservation applied to a fresh 4-slot
backend for each of the four operations. -/
theorem c4_outstanding_invariant_witness :
    OutstandingInv ((freshBackend 4).saveState ⟨false⟩ 9).2 ∧
    OutstandingInv ((freshBackend 4).handleUDPTimeouts ⟨false⟩ 2) :=
  ⟨c4_outstanding_invariant.2.1 ⟨false⟩ rfl (freshBackend 4) 9 (by decide) (by decide)
      (c4_outstanding_invariant.1 4),
   c4_outstanding_invariant.2.2.2.2 ⟨false⟩ rfl (freshBackend 4) 2 (by decide)
      (c4_outstanding_invariant.1 4)⟩

theorem buildHashes_perm (H : String → Nat → Nat) (idStr : String) (perturb : Nat) :
    ∀ w : Nat, List.Perm (buildHashes H idStr perturb w)
      ((List.range w).map (fun k => H (idStr ++ "-" ++ toString (k + 1)) perturb))
  | 0 => by simp [buildHashes]
  | w + 1 => by
    rw [List.range_succ, List.map_append]
    exact ((buildHashes_perm H idStr perturb w).cons _).trans
      (List.perm_append_singleton _ _).symm

/-- C2: for every backend state and every weight w of at least 1,
after hash() the hashes vector has length exactly w, is sorted
ascending, its multiset of elements is exactly the multiset of
H("<id>-<k>", perturbation) for k from 1 to w, and hashesComputed is
latched true. -/
theorem c2_hash_spec (H : String → Nat → Nat) (idStr : String) (perturb w : Nat)
    (s : HashState) (_hw : 1 ≤ w) :
    (s.hash H idStr perturb w).hashes.length = w ∧
    List.Sorted (· ≤ ·) (s.hash H idStr perturb w).hashes ∧
    List.Perm (s.hash H idStr perturb w).hashes
      ((List.range w).map (fun k => H (idStr ++ "-" ++ toString (k + 1)) perturb)) ∧
    (s.hash H idStr perturb w).hashesComputed = true := by
  have hperm : List.Perm (s.hash H idStr perturb w).hashes
      ((List.range w).map (fun k => H (idStr ++ "-" ++ toString (k + 1)) perturb)) :=
    (List.perm_insertionSort _ _).trans (buildHashes_perm H idStr perturb w)
  refine ⟨?_, ?_, hperm, rfl⟩
  · rw [hperm.length_eq, List.length_map, List.length_range]
  · exact List.sorted_insertionSort _ _

/-- C2 witness: the hash specification evaluated for a concrete hash
function, id string and weight 3. -/
theorem c2_hash_spec_witness :
    (HashState.hash (fun str p => str.length + p) "id" 5 3 ⟨[], false⟩).hashes.length = 3 :=
  (c2_hash_spec (fun str p => str.length + p) "id" 5 3 ⟨[], false⟩ (by decide)).1

theorem renumberFrom_map_fst : ∀ (l : List (Nat × Backend)) (idx : Nat),
    (renumberFrom idx l).map Prod.fst = List.range' idx l.length
  | [], idx => by simp [renumberFrom]
  | (o, s) :: rest, idx => by
    simp [renumberFrom, List.range'_succ, renumberFrom_map_fst rest (idx + 1)]

theorem renumberFrom_map_snd : ∀ (l : List (Nat × Backend)) (idx : Nat),
    (renumberFrom idx l).map Prod.snd = l.map Prod.snd
  | [], idx => by simp [renumberFrom]
  | (o, s) :: rest, idx => by
    simp [renumberFrom, renumberFrom_map_snd rest (idx + 1)]

theorem renumberFrom_length (l : List (Nat × Backend)) (idx : Nat) :
    (renumberFrom idx l).length = l.length := by
  have := congrArg List.length (renumberFrom_map_fst l idx)
  simpa using this

theorem bool_ne_not (b c : Bool) : (b ≠ !c) ↔ b = c := by
  cases b <;> cases c <;> simp

theorem ucLoop_preserves_seed : ∀ (l : List (Nat × Backend)) (acc : UCAcc),
    (ucLoop l false acc).useECS = acc.useECS ∧ (ucLoop l false acc).zeroScope = acc.zeroScope
  | [], acc => ⟨rfl, rfl⟩
  | (o, s) :: rest, acc => by
    simp only [ucLoop, Bool.false_eq_true, if_false]
    exact ucLoop_preserves_seed rest _

theorem ucLoop_tcpOnly : ∀ (l : List (Nat × Backend)) (acc : UCAcc),
    (ucLoop l false acc).tcpOnly = (acc.tcpOnly && l.all (fun q => q.2.tcpOnly))
  | [], acc => by simp [ucLoop]
  | (o, s) :: rest, acc => by
    cases hs : s.tcpOnly <;> cases ha : acc.tcpOnly <;>
      simp [ucLoop, ucLoop_tcpOnly rest, hs, ha]

theorem ucLoop_consistent : ∀ (l : List (Nat × Backend)) (acc : UCAcc),
    ((ucLoop l false acc).consistent = true ↔
      (acc.consistent = true ∧ ∀ q ∈ l,
        q.2.useECS = acc.useECS ∧ q.2.disableZeroScope ≠ acc.zeroScope ∧
        q.2.tcpOnly = acc.tcpOnly))
  | [], acc => by simp [ucLoop]
  | (o, s) :: rest, acc => by
    by_cases hE : s.useECS = acc.useECS <;>
      by_cases hZ : s.disableZeroScope = acc.zeroScope <;>
        by_cases hT : s.tcpOnly = acc.tcpOnly <;>
          cases hc : acc.consistent <;>
            simp [ucLoop, ucLoop_consistent rest, hE, hZ, hT, hc]

/-- C7 counterexample: on the empty pool every member is vacuously
TCP-only, yet updateConsistency publishes tcpOnly = false; and on an
inconsistent pool updateConsistency does not adopt useECS from the
first member (cxA has useECS = true, the pool keeps its old false). -/
theorem c7_counterexample :
    ((cxPoolEmpty.updateConsistency).tcpOnly = false ∧
      ∀ q ∈ cxPoolEmpty.servers, q.2.tcpOnly = true) ∧
    ((cxPoolAB.updateConsistency).useECS = false ∧ cxA.useECS = true) := by
  refine ⟨⟨rfl, ?_⟩, ⟨rfl, rfl⟩⟩
  intro q hq
  cases hq

/-- C7 (amended): updateConsistency on the empty pool publishes
tcpOnly = false, useECS = false, zeroScope = true and isConsistent =
true (the loop locals are published unchanged).  On a nonempty pool:
tcpOnly becomes true iff every member is TCP-only; isConsistent
becomes true iff every other member agrees with the first on useECS,
disableZeroScope and TCP-only; and useECS and zeroScope are adopted
from the first member (zeroScope as the negation of its
disableZeroScope) exactly when the members are consistent, being left
at their previous values otherwise. -/
theorem c7_updateConsistency_spec :
    (∀ p : ServerPool, p.servers = [] →
      (p.updateConsistency.tcpOnly = false ∧ p.updateConsistency.useECS = false ∧
       p.updateConsistency.zeroScope = true ∧ p.updateConsistency.isConsistent = true)) ∧
    (∀ (p : ServerPool) (o1 : Nat) (s1 : Backend) (rest : List (Nat × Backend)),
      p.servers = (o1, s1) :: rest →
      ((p.updateConsistency.tcpOnly = true ↔
         (s1.tcpOnly = true ∧ ∀ q ∈ rest, q.2.tcpOnly = true)) ∧
       (p.updateConsistency.isConsistent = true ↔
         (∀ q ∈ rest, q.2.useECS = s1.useECS ∧
           q.2.disableZeroScope = s1.disableZeroScope ∧ q.2.tcpOnly = s1.tcpOnly)) ∧
       (p.updateConsistency.isConsistent = true →
         p.updateConsistency.useECS = s1.useECS ∧
         p.updateConsistency.zeroScope = !s1.disableZeroScope) ∧
       (p.updateConsistency.isConsistent = false →
         p.updateConsistency.useECS = p.useECS ∧
         p.updateConsistency.zeroScope = p.zeroScope))) := by
  constructor
  · intro p hp
    simp [ServerPool.updateConsistency, hp, ucLoop]
  · intro p o1 s1 rest hp
    have hseed := ucLoop_preserves_seed rest
      { consistent := true, useECS := s1.useECS, tcpOnly := s1.tcpOnly,
        zeroScope := !s1.disableZeroScope }
    have htcp := ucLoop_tcpOnly rest
      { consistent := true, useECS := s1.useECS, tcpOnly := s1.tcpOnly,
        zeroScope := !s1.disableZeroScope }
    have hcons := ucLoop_consistent rest
      { consistent := true, useECS := s1.useECS, tcpOnly := s1.tcpOnly,
        zeroScope := !s1.disableZeroScope }
    have hrun : ucLoop p.servers true
        { consistent := true, useECS := false, tcpOnly := false, zeroScope := true } =
        ucLoop rest false
          { consistent := true, useECS := s1.useECS, tcpOnly := s1.tcpOnly,
            zeroScope := !s1.disableZeroScope } := by
      rw [hp]
      simp [ucLoop]
    refine ⟨?_, ?_, ?_, ?_⟩
    · show ((ServerPool.updateConsistency p).tcpOnly = true ↔ _)
      simp only [ServerPool.updateConsistency, hrun]
      rw [htcp]
      simp [List.all_eq_true]
    · show ((ServerPool.updateConsistency p).isConsistent = true ↔ _)
      simp only [ServerPool.updateConsistency, hrun]
      rw [hcons]
      simp only [true_and]
      constructor
      · intro h q hq
        obtain ⟨h1, h2, h3⟩ := h q hq
        exact ⟨h1, (bool_ne_not _ _).mp h2, h3⟩
      · intro h q hq
        obtain ⟨h1, h2, h3⟩ := h q hq
        exact ⟨h1, (bool_ne_not _ _).mpr h2, h3⟩
    · intro hcons2
      simp only [ServerPool.updateConsistency, hrun] at hcons2 ⊢
      simp only [hcons2, if_true]
      exact ⟨hseed.1, hseed.2⟩
    · intro hcons2
      simp only [ServerPool.updateConsistency, hrun] at hcons2 ⊢
      simp [hcons2]

/-- C7 witness: the amended specification evaluated on the empty pool
and on a concrete singleton pool containing cxA. -/
theorem c7_updateConsistency_spec_witness :
    (cxPoolEmpty.updateConsistency.tcpOnly = false ∧
      cxPoolEmpty.updateConsistency.useECS = false ∧
      cxPoolEmpty.updateConsistency.zeroScope = true ∧
      cxPoolEmpty.updateConsistency.isConsistent = true) ∧
    ((ServerPool.updateConsistency
        { servers := [(1, cxA)], useECS := false, zeroScope := false,
          tcpOnly := false, isConsistent := false }).tcpOnly = true ↔
      (cxA.tcpOnly = true ∧
        ∀ q ∈ ([] : List (Nat × Backend)), q.2.tcpOnly = true)) :=
  ⟨c7_updateConsistency_spec.1 cxPoolEmpty rfl,
   (c7_updateConsistency_spec.2
      { servers := [(1, cxA)], useECS := false, zeroScope := false,
        tcpOnly := false, isConsistent := false } 1 cxA [] rfl).1⟩

theorem removeLoop_found : ∀ (l1 : List (Nat × Backend)) (o : Nat) (b : Backend)
    (l2 : List (Nat × Backend)) (tgt idx : Nat),
    b.ident = tgt → (∀ x ∈ l1, x.2.ident ≠ tgt) →
    removeLoop tgt idx (l1 ++ (o, b) :: l2) =
      (l1 ++ renumberFrom (idx + l1.length) l2, true)
  | [], o, b, l2, tgt, idx, hb, _ => by
    simp [removeLoop, hb]
  | (o1, s1) :: l1, o, b, l2, tgt, idx, hb, hl1 => by
    have hs1 : s1.ident ≠ tgt := hl1 (o1, s1) (List.mem_cons_self _ _)
    have ih := removeLoop_found l1 o b l2 tgt (idx + 1) hb
      (fun x hx => hl1 x (List.mem_cons_of_mem _ hx))
    have harith : idx + 1 + l1.length = idx + (l1.length + 1) := by omega
    simp only [List.cons_append, removeLoop, hs1, if_false, List.append_eq, ih,
      List.length_cons, harith]

/-- C5 counterexample: the pool is consistent before the removal, yet
removeServer does not rerun updateConsistency (the source runs it only
when the pool was previously NOT consistent): recomputing the flags on
the post-removal membership would set useECS to true, but the actual
result keeps the stale false. -/
theorem c5_counterexample :
    cxPool5.isConsistent = true ∧
    (cxPool5.removeServer 1).useECS = false ∧
    (ServerPool.updateConsistency
      { cxPool5 with servers := (cxPool5.removeServer 1).servers }).useECS = true := by
  refine ⟨rfl, rfl, rfl⟩

/-- C5 (amended): removeServer erases the first member whose identity
matches, renumbers the ordinals of its successors (idx continues from
the erased position), and reruns updateConsistency exactly when the
pool was previously NOT consistent; when the pool was consistent the
derived flags are left untouched. -/
theorem c5_removeServer_spec (p : ServerPool) (tgt : Nat) (l1 : List (Nat × Backend))
    (o : Nat) (b : Backend) (l2 : List (Nat × Backend))
    (hsplit : p.servers = l1 ++ (o, b) :: l2) (hb : b.ident = tgt)
    (hl1 : ∀ x ∈ l1, x.2.ident ≠ tgt) :
    ((p.removeServer tgt).servers = l1 ++ renumberFrom (1 + l1.length) l2) ∧
    (p.isConsistent = true →
      p.removeServer tgt = { p with servers := l1 ++ renumberFrom (1 + l1.length) l2 }) ∧
    (p.isConsistent = false →
      p.removeServer tgt =
        ServerPool.updateConsistency
          { p with servers := l1 ++ renumberFrom (1 + l1.length) l2 }) := by
  have hloop : removeLoop tgt 1 p.servers = (l1 ++ renumberFrom (1 + l1.length) l2, true) := by
    rw [hsplit]
    exact removeLoop_found l1 o b l2 tgt 1 hb hl1
  refine ⟨?_, ?_, ?_⟩
  · cases hc : p.isConsistent <;>
      simp [ServerPool.removeServer, hloop, hc, ServerPool.updateConsistency]
  · intro hc
    simp [ServerPool.removeServer, hloop, hc]
  · intro hc
    simp [ServerPool.removeServer, hloop, hc]

/-- C5 witness: the amended removal specification evaluated on the
concrete pool cxPool5 (removing the first member, identity 1). -/
theorem c5_removeServer_spec_witness :
    (cxPool5.removeServer 1).servers =
      ([] : List (Nat × Backend)) ++
        renumberFrom (1 + ([] : List (Nat × Backend)).length) [(2, cxD)] :=
  (c5_removeServer_spec cxPool5 1 [] 1 cxC [(2, cxD)] rfl rfl
    (fun _y hx => nomatch hx)).1

/-- Inserting the appended element into an already order-sorted member
list: the stable sort places the newcomer after every member with
order less than or equal to its own and before the rest, leaving the
relative order of the existing members untouched.  This is the
characterization of the append-then-stable-sort step of
ServerPool::addServer. -/
theorem insertionSort_sorted_append :
    ∀ (l : List (Nat × Backend)) (xo : Nat) (xb : Backend),
    List.Sorted byOrder l →
    List.insertionSort byOrder (l ++ [(xo, xb)]) =
      l.takeWhile (fun e => decide (e.2.order ≤ xb.order)) ++
        (xo, xb) :: l.dropWhile (fun e => decide (e.2.order ≤ xb.order))
  | [], xo, xb, _ => by simp
  | c :: l, xo, xb, hs => by
    rw [List.sorted_cons] at hs
    obtain ⟨hc, hl⟩ := hs
    rw [List.cons_append, List.insertionSort, insertionSort_sorted_append l xo xb hl]
    by_cases hcx : byOrder c (xo, xb)
    · have hpc : (fun e : Nat × Backend => decide (e.2.order ≤ xb.order)) c = true := by
        simpa [byOrder] using hcx
      simp only [List.takeWhile_cons, List.dropWhile_cons, hpc, eq_self_iff_true, if_true]
      cases htw : l.takeWhile (fun e => decide (e.2.order ≤ xb.order)) with
      | nil =>
        simp only [htw, List.nil_append, List.cons_append]
        rw [List.orderedInsert, if_pos hcx]
      | cons h1 t1 =>
        have hh1 : h1 ∈ l := by
          have hmem : h1 ∈ l.takeWhile (fun e => decide (e.2.order ≤ xb.order)) := by
            rw [htw]
            exact List.mem_cons_self _ _
          exact (List.takeWhile_sublist _).subset hmem
        simp only [htw, List.cons_append]
        rw [List.orderedInsert, if_pos (hc h1 hh1)]
    · have hnx : ∀ e ∈ l, ¬ byOrder e (xo, xb) := by
        intro e he hex
        exact hcx (Int.le_trans (hc e he) hex)
      have htw : l.takeWhile (fun e => decide (e.2.order ≤ xb.order)) = [] := by
        cases l with
        | nil => rfl
        | cons h1 t1 =>
          rw [List.takeWhile_cons_of_neg]
          simp only [decide_eq_true_eq]
          exact hnx h1 (List.mem_cons_self _ _)
      have hdw : l.dropWhile (fun e => decide (e.2.order ≤ xb.order)) = l := by
        cases l with
        | nil => rfl
        | cons h1 t1 =>
          rw [List.dropWhile_cons_of_neg]
          simp only [decide_eq_true_eq]
          exact hnx h1 (List.mem_cons_self _ _)
      have hpc : (fun e : Nat × Backend => decide (e.2.order ≤ xb.order)) c = false :=
        decide_eq_false (fun hcon => hcx hcon)
      rw [htw, hdw]
      simp only [List.takeWhile_cons, List.dropWhile_cons, hpc, Bool.false_eq_true, if_false]
      simp only [List.nil_append]
      rw [List.orderedInsert, if_neg hcx]
      congr 1
      cases l with
      | nil => rfl
      | cons h1 t1 => rw [List.orderedInsert, if_pos (hc h1 (List.mem_cons_self _ _))]

theorem map_snd_takeWhile_order (l : List (Nat × Backend)) (b : Backend) :
    (l.takeWhile (fun e => decide (e.2.order ≤ b.order))).map Prod.snd =
      (l.map Prod.snd).takeWhile (fun s => decide (s.order ≤ b.order)) := by
  induction l with
  | nil => rfl
  | cons c t ih => by_cases h : c.2.order ≤ b.order <;> simp [h, ih]

theorem map_snd_dropWhile_order (l : List (Nat × Backend)) (b : Backend) :
    (l.dropWhile (fun e => decide (e.2.order ≤ b.order))).map Prod.snd =
      (l.map Prod.snd).dropWhile (fun s => decide (s.order ≤ b.order)) := by
  induction l with
  | nil => rfl
  | cons c t ih => by_cases h : c.2.order ≤ b.order <;> simp [h, ih]

theorem removeLoop_fst : ∀ (l : List (Nat × Backend)) (tgt idx : Nat),
    l.map Prod.fst = List.range' idx l.length →
    (removeLoop tgt idx l).1.map Prod.fst =
      List.range' idx (removeLoop tgt idx l).1.length
  | [], tgt, idx, _ => by simp [removeLoop]
  | (ord, s) :: rest, tgt, idx, h => by
    rw [List.length_cons, List.range'_succ] at h
    simp only [List.map_cons] at h
    injection h with hord hrest
    by_cases hs : s.ident = tgt
    · simp only [removeLoop, hs, if_true]
      rw [renumberFrom_map_fst, renumberFrom_length]
    · simp only [removeLoop, hs, if_false, List.map_cons, List.length_cons]
      rw [removeLoop_fst rest tgt (idx + 1) hrest, hord, List.range'_succ]

theorem removeServer_servers (p : ServerPool) (tgt : Nat) :
    (p.removeServer tgt).servers = (removeLoop tgt 1 p.servers).1 := by
  unfold ServerPool.removeServer
  cases hcond : ((removeLoop tgt 1 p.servers).2 && !p.isConsistent) <;>
    simp [hcond, ServerPool.updateConsistency]

theorem contiguous_addServer (p : ServerPool) (b : Backend) :
    Contiguous (p.addServer b).servers := by
  show (renumberFrom 1
      (List.insertionSort byOrder (p.servers ++ [(p.servers.length + 1, b)]))).map Prod.fst =
    List.range' 1 (renumberFrom 1
      (List.insertionSort byOrder (p.servers ++ [(p.servers.length + 1, b)]))).length
  rw [renumberFrom_map_fst, renumberFrom_length]

theorem contiguous_removeServer (p : ServerPool) (tgt : Nat)
    (h : Contiguous p.servers) : Contiguous (p.removeServer tgt).servers := by
  show (p.removeServer tgt).servers.map Prod.fst =
    List.range' 1 (p.removeServer tgt).servers.length
  rw [removeServer_servers]
  exact removeLoop_fst p.servers tgt 1 h

/-- C6: after any sequence of addServer and removeServer mutations the
ordinals stay the contiguous sequence 1..n; addServer always leaves
the members sorted by ascending config order; and on an already sorted
pool addServer inserts the new backend after every member whose order
is less than or equal to its own, keeping the relative (insertion)
order of the existing members, which is the stable-sort guarantee. -/
theorem c6_pool_mutation_spec :
    (∀ (ms : List PoolMutation) (p : ServerPool),
      Contiguous p.servers → Contiguous (applyMutations ms p).servers) ∧
    (∀ (p : ServerPool) (b : Backend),
      List.Sorted ordLe ((p.addServer b).servers.map Prod.snd)) ∧
    (∀ (p : ServerPool) (b : Backend), List.Sorted byOrder p.servers →
      (p.addServer b).servers.map Prod.snd =
        (p.servers.map Prod.snd).takeWhile (fun s => decide (s.order ≤ b.order)) ++
          b :: (p.servers.map Prod.snd).dropWhile (fun s => decide (s.order ≤ b.order))) := by
  refine ⟨?_, ?_, ?_⟩
  · intro ms
    induction ms with
    | nil => intro p h; exact h
    | cons m rest ih =>
      intro p h
      show Contiguous (applyMutations rest (applyMutation m p)).servers
      apply ih
      cases m with
      | add b => exact contiguous_addServer p b
      | remove i => exact contiguous_removeServer p i h
  · intro p b
    have hsnd : (p.addServer b).servers.map Prod.snd =
        (List.insertionSort byOrder (p.servers ++ [(p.servers.length + 1, b)])).map
          Prod.snd := by
      show (renumberFrom 1 _).map Prod.snd = _
      rw [renumberFrom_map_snd]
    rw [hsnd]
    exact List.Pairwise.map Prod.snd (fun a c hac => hac)
      (List.sorted_insertionSort byOrder (p.servers ++ [(p.servers.length + 1, b)]))
  · intro p b hs
    have hsnd : (p.addServer b).servers.map Prod.snd =
        (List.insertionSort byOrder (p.servers ++ [(p.servers.length + 1, b)])).map
          Prod.snd := by
      show (renumberFrom 1 _).map Prod.snd = _
      rw [renumberFrom_map_snd]
    rw [hsnd, insertionSort_sorted_append p.servers (p.servers.length + 1) b hs,
      List.map_append, List.map_cons, map_snd_takeWhile_order, map_snd_dropWhile_order]

/-- C6 witness: the mutation-sequence contiguity applied to the
concrete sequence add cxA, add cxB, remove 1 starting from the empty
pool, and the stable-insert equation applied to the empty pool. -/
theorem c6_pool_mutation_spec_witness :
    Contiguous (applyMutations [PoolMutation.add cxA, PoolMutation.add cxB,
      PoolMutation.remove 1] cxPoolEmpty).servers ∧
    (cxPoolEmpty.addServer cxB).servers.map Prod.snd =
      (cxPoolEmpty.servers.map Prod.snd).takeWhile (fun s => decide (s.order ≤ cxB.order)) ++
        cxB :: (cxPoolEmpty.servers.map Prod.snd).dropWhile
          (fun s => decide (s.order ≤ cxB.order)) :=
  ⟨c6_pool_mutation_spec.1 _ cxPoolEmpty rfl,
   c6_pool_mutation_spec.2.2 cxPoolEmpty cxB (List.sorted_nil)⟩

/-- C8: randomized-mode saveState probes up to 5 candidate ids taken
from the socketsOffset counter modulo 65535 (the random draw was
removed in this snapshot); the first candidate absent from the sparse
map wins and outstanding is incremented; when all five candidates are
already present, the fifth one is forcibly evicted: its stored context
is surfaced as a synthesized timeout, reuseds is incremented with
outstanding unchanged, and the new context is stored under that id,
which is returned. -/
theorem c8_saveState_random_spec (cfg : ImmutableConfig)
    (hm : cfg.randomizeIDsToBackend = true) (ds : DownstreamState) (ctx : Nat) :
    (alLookup (ds.socketsOffset % 65535) ds.idStatesMap = none →
      ds.saveState cfg ctx =
        (ds.socketsOffset % 65535,
          { ds with socketsOffset := inc64 ds.socketsOffset,
                    idStatesMap := ds.idStatesMap ++
                      [(ds.socketsOffset % 65535, ⟨false, 0, ctx⟩)],
                    outstanding := inc64 ds.outstanding })) ∧
    (∀ v0, alLookup (ds.socketsOffset % 65535) ds.idStatesMap = some v0 →
      alLookup (inc64 ds.socketsOffset % 65535) ds.idStatesMap = none →
      ds.saveState cfg ctx =
        (inc64 ds.socketsOffset % 65535,
          { ds with socketsOffset := inc64 (inc64 ds.socketsOffset),
                    idStatesMap := ds.idStatesMap ++
                      [(inc64 ds.socketsOffset % 65535, ⟨false, 0, ctx⟩)],
                    outstanding := inc64 ds.outstanding })) ∧
    (∀ v0 v1, alLookup (ds.socketsOffset % 65535) ds.idStatesMap = some v0 →
      alLookup (inc64 ds.socketsOffset % 65535) ds.idStatesMap = some v1 →
      alLookup (inc64 (inc64 ds.socketsOffset) % 65535) ds.idStatesMap = none →
      ds.saveState cfg ctx =
        (inc64 (inc64 ds.socketsOffset) % 65535,
          { ds with socketsOffset := inc64 (inc64 (inc64 ds.socketsOffset)),
                    idStatesMap := ds.idStatesMap ++
                      [(inc64 (inc64 ds.socketsOffset) % 65535, ⟨false, 0, ctx⟩)],
                    outstanding := inc64 ds.outstanding })) ∧
    (∀ v0 v1 v2, alLookup (ds.socketsOffset % 65535) ds.idStatesMap = some v0 →
      alLookup (inc64 ds.socketsOffset % 65535) ds.idStatesMap = some v1 →
      alLookup (inc64 (inc64 ds.socketsOffset) % 65535) ds.idStatesMap = some v2 →
      alLookup (inc64 (inc64 (inc64 ds.socketsOffset)) % 65535) ds.idStatesMap = none →
      ds.saveState cfg ctx =
        (inc64 (inc64 (inc64 ds.socketsOffset)) % 65535,
          { ds with socketsOffset := inc64 (inc64 (inc64 (inc64 ds.socketsOffset))),
                    idStatesMap := ds.idStatesMap ++
                      [(inc64 (inc64 (inc64 ds.socketsOffset)) % 65535, ⟨false, 0, ctx⟩)],
                    outstanding := inc64 ds.outstanding })) ∧
    (∀ v0 v1 v2 v3, alLookup (ds.socketsOffset % 65535) ds.idStatesMap = some v0 →
      alLookup (inc64 ds.socketsOffset % 65535) ds.idStatesMap = some v1 →
      alLookup (inc64 (inc64 ds.socketsOffset) % 65535) ds.idStatesMap = some v2 →
      alLookup (inc64 (inc64 (inc64 ds.socketsOffset)) % 65535) ds.idStatesMap = some v3 →
      alLookup (inc64 (inc64 (inc64 (inc64 ds.socketsOffset))) % 65535) ds.idStatesMap = none →
      ds.saveState cfg ctx =
        (inc64 (inc64 (inc64 (inc64 ds.socketsOffset))) % 65535,
          { ds with
              socketsOffset := inc64 (inc64 (inc64 (inc64 (inc64 ds.socketsOffset)))),
              idStatesMap := ds.idStatesMap ++
                [(inc64 (inc64 (inc64 (inc64 ds.socketsOffset))) % 65535, ⟨false, 0, ctx⟩)],
              outstanding := inc64 ds.outstanding })) ∧
    (∀ v0 v1 v2 v3 v4, alLookup (ds.socketsOffset % 65535) ds.idStatesMap = some v0 →
      alLookup (inc64 ds.socketsOffset % 65535) ds.idStatesMap = some v1 →
      alLookup (inc64 (inc64 ds.socketsOffset) % 65535) ds.idStatesMap = some v2 →
      alLookup (inc64 (inc64 (inc64 ds.socketsOffset)) % 65535) ds.idStatesMap = some v3 →
      alLookup (inc64 (inc64 (inc64 (inc64 ds.socketsOffset))) % 65535) ds.idStatesMap = some v4 →
      ds.saveState cfg ctx =
        (inc64 (inc64 (inc64 (inc64 ds.socketsOffset))) % 65535,
          { ds with
              socketsOffset := inc64 (inc64 (inc64 (inc64 (inc64 ds.socketsOffset)))),
              idStatesMap := alSet (inc64 (inc64 (inc64 (inc64 ds.socketsOffset))) % 65535)
                { v4 with internal := ctx, age := 0 } ds.idStatesMap,
              reuseds := inc64 ds.reuseds,
              timedOut := ds.timedOut ++ [v4.internal] })) := by
  refine ⟨?_, ?_, ?_, ?_, ?_, ?_⟩
  · intro h0
    simp [DownstreamState.saveState, hm, DownstreamState.saveLoop, h0, IDState.init]
  · intro v0 h0 h1
    simp [DownstreamState.saveState, hm, DownstreamState.saveLoop, h0, h1, IDState.init]
  · intro v0 v1 h0 h1 h2
    simp [DownstreamState.saveState, hm, DownstreamState.saveLoop, h0, h1, h2, IDState.init]
  · intro v0 v1 v2 h0 h1 h2 h3
    simp [DownstreamState.saveState, hm, DownstreamState.saveLoop, h0, h1, h2, h3, IDState.init]
  · intro v0 v1 v2 v3 h0 h1 h2 h3 h4
    simp [DownstreamState.saveState, hm, DownstreamState.saveLoop, h0, h1, h2, h3, h4, IDState.init]
  · intro v0 v1 v2 v3 v4 h0 h1 h2 h3 h4
    simp [DownstreamState.saveState, hm, DownstreamState.saveLoop, h0, h1, h2, h3, h4, IDState.init]

/-- C8 witness: the first-candidate-absent case evaluated on a backend
with an empty sparse map. -/
theorem c8_saveState_random_spec_witness :
    DownstreamState.saveState ⟨true⟩ 42 (freshBackend 0) =
      ((freshBackend 0).socketsOffset % 65535,
        { freshBackend 0 with
            socketsOffset := inc64 (freshBackend 0).socketsOffset,
            idStatesMap := (freshBackend 0).idStatesMap ++
              [((freshBackend 0).socketsOffset % 65535, ⟨false, 0, 42⟩)],
            outstanding := inc64 (freshBackend 0).outstanding }) :=
  (c8_saveState_random_spec ⟨true⟩ rfl (freshBackend 0) 42).1 rfl

theorem reconnectLoop_done_true (env : SockEnv) (useBind : Bool) :
    ∀ (l : List Int) (i : Nat) (c : Bool) (fds : List Int),
    reconnectLoop env useBind i c l = ReconnLoop.done fds true →
    fds.length = l.length ∧ (∀ fd ∈ fds, 0 ≤ fd) ∧
    (∀ j, j < l.length → env.openOk (i + j) = true ∧
      (useBind = true → env.bindOk (i + j) = true) ∧ env.connectOk (i + j) = true)
  | [], i, c, fds, h => by
    simp only [reconnectLoop] at h
    injection h with h1 h2
    subst h1
    refine ⟨rfl, by simp, ?_⟩
    intro j hj
    cases hj
  | fd :: rest, i, c, fds, h => by
    simp only [reconnectLoop] at h
    by_cases hopen : env.openOk i = false
    · rw [if_pos hopen] at h
      cases h
    · rw [if_neg hopen] at h
      have hopen2 : env.openOk i = true := by
        revert hopen; cases env.openOk i <;> simp
      by_cases hbind : (useBind && decide (env.bindOk i = false)) = true
      · rw [if_pos hbind] at h
        cases h
      · rw [if_neg hbind] at h
        by_cases hconn : env.connectOk i = false
        · rw [if_pos hconn] at h
          injection h with h1 h2
          cases h2
        · rw [if_neg hconn] at h
          have hconn2 : env.connectOk i = true := by
            revert hconn; cases env.connectOk i <;> simp
          cases hrec : reconnectLoop env useBind (i + 1) true rest with
          | threw fds2 c2 =>
            rw [hrec] at h
            cases h
          | done fds2 c2 =>
            rw [hrec] at h
            injection h with h1 h2
            subst h1
            subst h2
            obtain ⟨ihlen, ihpos, ihprops⟩ :=
              reconnectLoop_done_true env useBind rest (i + 1) true fds2 hrec
            refine ⟨by simp [ihlen], ?_, ?_⟩
            · intro fd2 hfd2
              rcases List.mem_cons.mp hfd2 with hfd2 | hfd2
              · subst hfd2
                exact Int.ofNat_nonneg _
              · exact ihpos fd2 hfd2
            · intro j hj
              cases j with
              | zero =>
                refine ⟨by simpa using hopen2, ?_, by simpa using hconn2⟩
                intro hub
                rw [hub, Bool.true_and] at hbind
                have : env.bindOk i = true := by
                  revert hbind; cases env.bindOk i <;> simp
                simpa using this
              | succ j2 =>
                have hj2 : j2 < rest.length := by
                  simp only [List.length_cons] at hj
                  omega
                have hprops := ihprops j2 hj2
                have harith : i + 1 + j2 = i + (j2 + 1) := by omega
                rw [harith] at hprops
                exact hprops

/-- C9 counterexample.  First: with a wildcard remote address,
reconnect returns true while no socket is open and connected is still
false, so a true return does not mean every socket was reopened and
connected.  Second: an SBind failure is not caught: the call ends in a
propagated exception (not a false return) with the first socket left
open (descriptor 10), so a bind failure does not close every
socket. -/
theorem c9_counterexample :
    (DownstreamState.reconnect cxEnvBindFail cxCfgAny cxSt2 = ReconnectOutcome.ret true cxSt2 ∧
      cxSt2.connected = false ∧ cxSt2.sockets = [-1, -1]) ∧
    (DownstreamState.reconnect cxEnvBindFail cxCfgBind cxSt2 =
      ReconnectOutcome.exn { sockets := [10, -1], connected := false } ∧
      (10 : Int) ≠ -1) := by
  refine ⟨⟨rfl, rfl, rfl⟩, ⟨rfl, by decide⟩⟩

/-- C9 (amended): reconnect returns false with the socket state
untouched when the connect lock is busy or the backend is stopped;
returns true immediately, also without touching the sockets, when the
configured remote is the wildcard any-address; otherwise, whenever it
returns false every socket has been closed (every descriptor is -1 and
connected is false), and whenever it returns true the connected flag
is set and every slot holds a freshly opened, successfully bound and
connected descriptor.  Failures of the uncaught SSocket/SBind calls
escape as exceptions instead of a false return. -/
theorem c9_reconnect_spec (env : SockEnv) (cfg : ReconnCfg) (st : SockState) :
    ((env.lockBusy = true ∨ cfg.stopped = true) →
      DownstreamState.reconnect env cfg st = ReconnectOutcome.ret false st) ∧
    (env.lockBusy = false → cfg.stopped = false → cfg.remoteIsAny = true →
      DownstreamState.reconnect env cfg st = ReconnectOutcome.ret true st) ∧
    (env.lockBusy = false → cfg.stopped = false → cfg.remoteIsAny = false →
      (∀ st2, DownstreamState.reconnect env cfg st = ReconnectOutcome.ret false st2 →
        st2.connected = false ∧ ∀ fd ∈ st2.sockets, fd = -1) ∧
      (∀ st2, DownstreamState.reconnect env cfg st = ReconnectOutcome.ret true st2 →
        st2.connected = true ∧ st2.sockets.length = st.sockets.length ∧
        (∀ fd ∈ st2.sockets, 0 ≤ fd) ∧
        (∀ j, j < st.sockets.length → env.openOk j = true ∧
          (cfg.useBind = true → env.bindOk j = true) ∧ env.connectOk j = true))) := by
  refine ⟨?_, ?_, ?_⟩
  · intro h
    cases h with
    | inl h => simp [DownstreamState.reconnect, h]
    | inr h => simp [DownstreamState.reconnect, h]
  · intro hb hs ha
    simp [DownstreamState.reconnect, hb, hs, ha]
  · intro hb hs ha
    cases hloop : reconnectLoop env cfg.useBind 0 false st.sockets with
    | threw fds c =>
      constructor
      · intro st2 hret
        simp only [DownstreamState.reconnect, hb, hs, ha, Bool.or_self, Bool.false_eq_true,
          if_false, hloop] at hret
        cases hret
      · intro st2 hret
        simp only [DownstreamState.reconnect, hb, hs, ha, Bool.or_self, Bool.false_eq_true,
          if_false, hloop] at hret
        cases hret
    | done fds conn =>
      cases conn with
      | false =>
        constructor
        · intro st2 hret
          simp only [DownstreamState.reconnect, hb, hs, ha, Bool.or_self, Bool.false_eq_true,
            if_false, hloop] at hret
          injection hret with h1 h2
          subst h2
          refine ⟨rfl, ?_⟩
          intro fd hfd
          obtain ⟨fd0, _, hfd0⟩ := List.mem_map.mp hfd
          exact hfd0.symm
        · intro st2 hret
          simp only [DownstreamState.reconnect, hb, hs, ha, Bool.or_self, Bool.false_eq_true,
            if_false, hloop] at hret
          cases hret
      | true =>
        constructor
        · intro st2 hret
          simp only [DownstreamState.reconnect, hb, hs, ha, Bool.or_self, Bool.false_eq_true,
            if_false, hloop] at hret
          cases hret
        · intro st2 hret
          simp only [DownstreamState.reconnect, hb, hs, ha, Bool.or_self, Bool.false_eq_true,
            if_false, hloop] at hret
          injection hret with h1 h2
          subst h2
          obtain ⟨hlen, hpos, hprops⟩ :=
            reconnectLoop_done_true env cfg.useBind st.sockets 0 false fds hloop
          refine ⟨rfl, hlen, hpos, ?_⟩
          intro j hj
          have hp := hprops j hj
          simpa using hp

/-- C9 witness: the amended specification applied to a busy connect
lock. -/
theorem c9_reconnect_spec_witness :
    DownstreamState.reconnect cxEnvBusy cxCfgBind cxSt2 = ReconnectOutcome.ret false cxSt2 :=
  (c9_reconnect_spec cxEnvBusy cxCfgBind cxSt2).1 (Or.inl rfl)

/-- C10: with the wildcard any-address configured as remote (and the
call actually proceeding: lock free, backend not stopped), reconnect
returns true immediately with the socket state returned exactly as it
was: no socket is closed, opened, or connected and the connected flag
is not modified.  A true return therefore does not imply that any
socket is open. -/
theorem c10_reconnect_wildcard (env : SockEnv) (cfg : ReconnCfg) (st : SockState)
    (hb : env.lockBusy = false) (hs : cfg.stopped = false) (ha : cfg.remoteIsAny = true) :
    DownstreamState.reconnect env cfg st = ReconnectOutcome.ret true st := by
  simp [DownstreamState.reconnect, hb, hs, ha]

/-- C10 witness: the wildcard short-circuit evaluated on a backend
whose sockets are all closed, showing a true return with no open
socket and connected still false. -/
theorem c10_reconnect_wildcard_witness :
    DownstreamState.reconnect cxEnvBindFail cxCfgAny cxSt2 = ReconnectOutcome.ret true cxSt2 ∧
    (∀ fd ∈ cxSt2.sockets, fd = -1) ∧ cxSt2.connected = false :=
  ⟨c10_reconnect_wildcard cxEnvBindFail cxCfgAny cxSt2 rfl rfl rfl, by decide, rfl⟩
